import Mathlib

/-!
Verification of the entry data-access core of a journaling web application.

The repository's behavioral core is `src/lib/entries.ts`: three Firestore
operations (`createEntry`, `getEntriesForUser`, `deleteEntry`) over a single
flat `entries` collection, plus the two calling components
(`entry-form.tsx`'s `handleSubmit` and `entry-list.tsx`'s `handleDelete`).

The embedding models the Firestore collection as a list of stored documents
in insertion order.  Each SDK call is a single request that either fails
(the promise rejects, modelled with `Except`) or succeeds; the repository
functions contain no retry and no catch, so a store-level failure is
propagated unchanged.  `Timestamp.now()` in the client SDK reads the clock
of the process issuing the call (the browser), so it is modelled as an
explicit `clientNow` argument to `createEntry`; timestamps are naturals
(milliseconds).  `orderBy("createdAt", "desc")` is modelled by sorting the
matching documents with a stable insertion sort under the
descending-`createdAt` relation `docLE`.
-/

namespace Journal

/-- Opaque store-level error carried by a rejected Firestore call
(`FirebaseError` in the SDK); the repository never inspects it. -/
structure StoreErr where
  code : String
deriving DecidableEq, Repr

/-- Shape of a stored record in the `entries` collection, from the
`FirestoreEntry` interface in `src/lib/entries.ts`: `userId`, `content`,
`createdAt` (a `Timestamp`, modelled as milliseconds). -/
structure FirestoreEntry where
  userId : String
  content : String
  createdAt : Nat
deriving DecidableEq, Repr

/-- A document in the collection: its store-assigned id plus its data. -/
structure StoredDoc where
  id : String
  data : FirestoreEntry
deriving DecidableEq, Repr

/-- The `entries` collection, in insertion order. -/
abbrev Store := List StoredDoc

/-- The domain `Entry` shape from `src/lib/entries.ts`: `id`, `userId`,
`content`, `createdAt` (a `Date`, modelled as milliseconds). -/
structure Entry where
  id : String
  userId : String
  content : String
  createdAt : Nat
deriving DecidableEq, Repr

/-- Reference to a freshly written document, as returned by `addDoc`. -/
structure DocRef where
  id : String
deriving DecidableEq, Repr

/-- Output order of `orderBy("createdAt", "desc")`: `d1` comes no later
than `d2` when its `createdAt` is no smaller. -/
def docLE (d1 d2 : StoredDoc) : Prop :=
  d2.data.createdAt ≤ d1.data.createdAt

instance : DecidableRel docLE := fun d1 d2 =>
  inferInstanceAs (Decidable (d2.data.createdAt ≤ d1.data.createdAt))

instance : IsTotal StoredDoc docLE :=
  ⟨fun d1 d2 => (Nat.le_total d2.data.createdAt d1.data.createdAt).imp id id⟩

instance : IsTrans StoredDoc docLE :=
  ⟨fun _ _ _ h1 h2 => Nat.le_trans h2 h1⟩

/-- The Firestore `addDoc` primitive on the `entries` collection: a single
write request.  On success the document is appended with the store-assigned
fresh id `newId` and a `DocRef` to it is returned; on failure the promise
rejects with the store error and nothing is written. -/
def addDoc (store : Store) (newId : String) (e : FirestoreEntry)
    (failure : Option StoreErr) : Except StoreErr (Store × DocRef) :=
  match failure with
  | some err => .error err
  | none => .ok (store ++ [⟨newId, e⟩], ⟨newId⟩)

/-- `createEntry` from `src/lib/entries.ts`: awaits
`addDoc(collection(db, "entries"), { userId, content, createdAt: Timestamp.now() })`
and returns `docRef.id`.  `Timestamp.now()` reads the clock of the calling
(client) process, modelled as the `clientNow` argument; there is no catch
and no retry, so a rejection propagates. -/
def createEntry (store : Store) (userId content : String) (clientNow : Nat)
    (newId : String) (failure : Option StoreErr) :
    Except StoreErr (Store × String) := do
  let (store2, docRef) ← addDoc store newId
    { userId := userId, content := content, createdAt := clientNow } failure
  pure (store2, docRef.id)

/-- The Firestore query `where("userId", "==", userId)` with
`orderBy("createdAt", "desc")`, executed by `getDocs`: a single read request
returning the matching documents in descending `createdAt` order, or a
rejection. -/
def getDocs (store : Store) (userId : String) (failure : Option StoreErr) :
    Except StoreErr (List StoredDoc) :=
  match failure with
  | some err => .error err
  | none =>
      .ok (List.insertionSort docLE
        (store.filter (fun d => d.data.userId == userId)))

/-- Translation of a stored document to the domain `Entry` shape, from the
`snapshot.docs.map` body of `getEntriesForUser`. -/
def toEntry (d : StoredDoc) : Entry :=
  { id := d.id, userId := d.data.userId, content := d.data.content,
    createdAt := d.data.createdAt }

/-- `getEntriesForUser` from `src/lib/entries.ts`: awaits `getDocs` on the
owner-filtered, descending-ordered query and maps each snapshot document to
an `Entry`.  No catch and no retry. -/
def getEntriesForUser (store : Store) (userId : String)
    (failure : Option StoreErr) : Except StoreErr (List Entry) := do
  let docs ← getDocs store userId failure
  pure (docs.map toEntry)

/-- The Firestore `deleteDoc` primitive on `doc(db, "entries", entryId)`:
a single delete request removing the document with that id (reading nothing
from it), or a rejection. -/
def deleteDoc (store : Store) (entryId : String)
    (failure : Option StoreErr) : Except StoreErr Store :=
  match failure with
  | some err => .error err
  | none => .ok (store.filter (fun d => d.id != entryId))

/-- `deleteEntry` from `src/lib/entries.ts`: awaits `deleteDoc` and returns
void (`Unit`) on success.  No catch, no retry, and no read of the record
before the delete. -/
def deleteEntry (store : Store) (entryId : String)
    (failure : Option StoreErr) : Except StoreErr (Store × Unit) := do
  let store2 ← deleteDoc store entryId failure
  pure (store2, ())

/-- Rewrites every stored document's `userId` through `f`, leaving ids,
contents and timestamps alone.  Used to state that `deleteEntry` never
consults ownership: its action commutes with any change of owners. -/
def setUserIds (f : String → String) (store : Store) : Store :=
  store.map (fun d =>
    ⟨d.id, { userId := f d.data.userId, content := d.data.content,
             createdAt := d.data.createdAt }⟩)

/-- Whitespace trim of JS `String.prototype.trim()`, called by the form as
`content.trim()`: drops leading and trailing whitespace characters.
(Executable model; Lean's builtin `String.trim` does not reduce in the
kernel.) -/
def jsTrim (s : String) : String :=
  ⟨((s.data.dropWhile Char.isWhitespace).reverse.dropWhile Char.isWhitespace).reverse⟩

/-- Local state of the entry form (`entry-form.tsx`): the composed text and
the submitting flag. -/
structure FormState where
  content : String
  isSubmitting : Bool
deriving DecidableEq, Repr

/-- `handleSubmit` from `entry-form.tsx`.  `user` is the authenticated
uid (`none` when signed out); `createResult` is the outcome of the awaited
`createEntry` call, consulted only when the call is issued.  Returns the
form state after the handler and, when `createEntry` was invoked, the
`(uid, content)` arguments it was passed.  The guard
`if (!user || !content.trim()) return;` leaves the state untouched;
on success the textarea is cleared; on error the catch only logs, keeping
the composed text; the finally block clears the submitting flag. -/
def handleSubmit (user : Option String) (st : FormState)
    (createResult : Except StoreErr String) :
    FormState × Option (String × String) :=
  match user with
  | none => (st, none)
  | some uid =>
      if jsTrim st.content = "" then (st, none)
      else
        match createResult with
        | .ok _ =>
            ({ content := "", isSubmitting := false },
             some (uid, jsTrim st.content))
        | .error _ =>
            ({ content := st.content, isSubmitting := false },
             some (uid, jsTrim st.content))

/-- `handleDelete` from `entry-list.tsx`, acting on the locally held
`entries` state.  `deleteResult` is the outcome of the awaited
`deleteEntry` call.  On success the local list is replaced by
`prev.filter((e) => e.id !== entryId)`; on error the catch only logs and
the list is unchanged.  (The transient `deletingId` spinner value is set
back to null by the finally block in both branches and carries no lasting
state, so it is not modelled.) -/
def handleDelete (entries : List Entry) (entryId : String)
    (deleteResult : Except StoreErr Unit) : List Entry :=
  match deleteResult with
  | .ok _ => entries.filter (fun e => e.id != entryId)
  | .error _ => entries

/-- Concrete one-document store used in counterexamples: owner `"u"`
already holds an entry written at time 5. -/
def cexStore : Store := [⟨"a", { userId := "u", content := "old", createdAt := 5 }⟩]

/-!  General lemmas about the embedding, shared by the claim theorems. -/

/-- On a successful read, `getEntriesForUser` returns exactly the
owner-filtered store, sorted descending by `createdAt` and translated to
the `Entry` shape. -/
lemma getEntriesForUser_none_eq (store : Store) (uid : String) :
    getEntriesForUser store uid none =
      .ok ((List.insertionSort docLE
        (store.filter (fun d => d.data.userId == uid))).map toEntry) := rfl

/-- Appending a document strictly newer than everything in the list and
then sorting descending puts it first. -/
lemma insertionSort_append_strict_max (l : List StoredDoc) (b : StoredDoc)
    (h : ∀ d ∈ l, d.data.createdAt < b.data.createdAt) :
    List.insertionSort docLE (l ++ [b]) = b :: List.insertionSort docLE l := by
  induction l with
  | nil => rfl
  | cons a l ih =>
      have hab : ¬ docLE a b := by
        have := h a (List.mem_cons_self a l)
        simp only [docLE, not_le]
        exact this
      have ih2 := ih (fun d hd => h d (List.mem_cons_of_mem a hd))
      simp only [List.cons_append, List.insertionSort, List.append_eq]
      rw [ih2]
      simp only [List.orderedInsert, if_neg hab]

/-- C1: for every `ownerId`, a successful `getEntriesForUser(ownerId)`
returns only entries whose stored `userId` equals the argument, and the
returned sequence is sorted in non-increasing `createdAt` order (most
recent first). -/
theorem getEntriesForUser_owner_scoped_sorted (store : Store) (uid : String)
    (entries : List Entry)
    (h : getEntriesForUser store uid none = .ok entries) :
    (∀ e ∈ entries, e.userId = uid) ∧
    List.Sorted (fun e1 e2 : Entry => e2.createdAt ≤ e1.createdAt) entries := by
  rw [getEntriesForUser_none_eq] at h
  injection h with hent
  subst hent
  constructor
  · intro e he
    rcases List.mem_map.mp he with ⟨d, hd, rfl⟩
    have hd2 := (List.mem_insertionSort docLE).mp hd
    have := (List.mem_filter.mp hd2).2
    simpa [toEntry] using eq_of_beq this
  · have hs : List.Sorted docLE (List.insertionSort docLE
        (store.filter (fun d => d.data.userId == uid))) :=
      List.sorted_insertionSort docLE _
    exact List.Pairwise.map toEntry (fun a b hab => hab) hs

/-- Witness for C1 at a concrete one-entry store. -/
theorem getEntriesForUser_owner_scoped_sorted_witness :
    (∀ e ∈ ([⟨"a", "u", "old", 5⟩] : List Entry), e.userId = "u") ∧
    List.Sorted (fun e1 e2 : Entry => e2.createdAt ≤ e1.createdAt)
      [⟨"a", "u", "old", 5⟩] :=
  getEntriesForUser_owner_scoped_sorted cexStore "u" _ rfl

/-- C2: the `createdAt` stored by `createEntry` is exactly the
client-supplied clock reading (`Timestamp.now()` evaluated in the calling
process), not a value assigned by the store's server-side clock: the
inserted record carries the `clientNow` argument verbatim. -/
theorem createEntry_stores_client_clock (store : Store) (uid content : String)
    (clientNow : Nat) (newId : String) :
    createEntry store uid content clientNow newId none =
      .ok (store ++
        [⟨newId, { userId := uid, content := content, createdAt := clientNow }⟩],
        newId) := rfl

/-- C6: a failing store call is propagated unchanged by every repository
operation — no retry, no catch — and a failed `createEntry` never returns
an id. -/
theorem storeFailure_propagates (store : Store) (uid content : String)
    (clientNow : Nat) (newId eid : String) (err : StoreErr) :
    createEntry store uid content clientNow newId (some err) = .error err ∧
    getEntriesForUser store uid (some err) = .error err ∧
    deleteEntry store eid (some err) = .error err ∧
    ∀ out : Store × String,
      createEntry store uid content clientNow newId (some err) ≠ .ok out := by
  refine ⟨rfl, rfl, rfl, fun out hout => ?_⟩
  exact Except.noConfusion hout

/-- Witness for C6 at concrete inputs. -/
theorem storeFailure_propagates_witness :
    createEntry cexStore "u" "hello" 9 "b" (some ⟨"unavailable"⟩)
      = .error ⟨"unavailable"⟩ ∧
    getEntriesForUser cexStore "u" (some ⟨"unavailable"⟩)
      = .error ⟨"unavailable"⟩ ∧
    deleteEntry cexStore "a" (some ⟨"unavailable"⟩)
      = .error ⟨"unavailable"⟩ ∧
    ∀ out : Store × String,
      createEntry cexStore "u" "hello" 9 "b" (some ⟨"unavailable"⟩)
        ≠ .ok out :=
  storeFailure_propagates cexStore "u" "hello" 9 "b" "a" ⟨"unavailable"⟩

/-- C7: on a rejected store call the caller's local state is unchanged:
a failed `createEntry` leaves the form's composed text intact, and a
failed `deleteEntry` leaves the locally held entry list exactly as it
was (so the target entry remains present). -/
theorem rejected_call_leaves_local_state (user : Option String)
    (st : FormState) (entries : List Entry) (eid : String) (err : StoreErr) :
    (handleSubmit user st (.error err)).1.content = st.content ∧
    handleDelete entries eid (.error err) = entries := by
  refine ⟨?_, rfl⟩
  match user with
  | none => rfl
  | some uid =>
      by_cases hc : jsTrim st.content = "" <;>
        simp [handleSubmit, hc]

/-- C8: `getEntriesForUser` on an owner with zero stored entries returns
the empty sequence on a successful read — an empty result, not an error. -/
theorem getEntriesForUser_empty_owner (store : Store) (uid : String)
    (h : ∀ d ∈ store, d.data.userId ≠ uid) :
    getEntriesForUser store uid none = .ok [] := by
  rw [getEntriesForUser_none_eq]
  have hf : store.filter (fun d => d.data.userId == uid) = [] :=
    List.filter_eq_nil_iff.mpr (fun d hd => by
      simpa using h d hd)
  rw [hf]
  rfl

/-- Witness for C8: the store holds only another owner's entry. -/
theorem getEntriesForUser_empty_owner_witness :
    getEntriesForUser cexStore "nobody" none = .ok [] :=
  getEntriesForUser_empty_owner cexStore "nobody" (by decide)

/-- C3 counterexample: because `createdAt` is the client clock reading,
a store state whose prior entry carries a later timestamp (time 5) than
the new write (time 3) makes `getEntriesForUser` place the new entry
last, not first: the claim fails for this store state. -/
theorem createEntry_then_list_new_not_first :
    createEntry cexStore "u" "new" 3 "b" none =
      .ok (cexStore ++
        [⟨"b", { userId := "u", content := "new", createdAt := 3 }⟩], "b") ∧
    getEntriesForUser
      (cexStore ++ [⟨"b", { userId := "u", content := "new", createdAt := 3 }⟩])
      "u" none =
      .ok [⟨"a", "u", "old", 5⟩, ⟨"b", "u", "new", 3⟩] ∧
    ([(⟨"a", "u", "old", 5⟩ : Entry), ⟨"b", "u", "new", 3⟩].head?
      ≠ some ⟨"b", "u", "new", 3⟩) :=
  ⟨rfl, rfl, by decide⟩

/-- C3 (amended): when the new entry's `createdAt` (the client clock at
write time) is strictly greater than the `createdAt` of every prior entry
of that owner, a successful `createEntry(ownerId, content)` followed
immediately by `getEntriesForUser(ownerId)` yields the prior list plus
exactly one new entry carrying that content and owner, positioned
first. -/
theorem createEntry_then_list_new_first (store : Store)
    (uid content : String) (clientNow : Nat) (newId : String)
    (prior : List Entry)
    (hfresh : ∀ d ∈ store, d.data.userId = uid →
      d.data.createdAt < clientNow)
    (hprior : getEntriesForUser store uid none = .ok prior) :
    createEntry store uid content clientNow newId none =
      .ok (store ++
        [⟨newId, { userId := uid, content := content, createdAt := clientNow }⟩],
        newId) ∧
    getEntriesForUser
      (store ++
        [⟨newId, { userId := uid, content := content, createdAt := clientNow }⟩])
      uid none =
      .ok (⟨newId, uid, content, clientNow⟩ :: prior) := by
  rw [getEntriesForUser_none_eq] at hprior
  injection hprior with hprior
  refine ⟨rfl, ?_⟩
  rw [getEntriesForUser_none_eq]
  have hfilter :
      (store ++
        ([⟨newId, { userId := uid, content := content, createdAt := clientNow }⟩] :
          Store)).filter (fun d => d.data.userId == uid) =
      store.filter (fun d => d.data.userId == uid) ++
        [⟨newId, { userId := uid, content := content, createdAt := clientNow }⟩] := by
    simp [List.filter_append]
  rw [hfilter, insertionSort_append_strict_max _ _ (fun d hd => by
    have hm := List.mem_filter.mp hd
    exact hfresh d hm.1 (eq_of_beq hm.2))]
  rw [List.map_cons, hprior]
  rfl

/-- Witness for C3 (amended): one prior entry at time 1, new write at
time 5. -/
theorem createEntry_then_list_new_first_witness :
    createEntry [⟨"a", { userId := "u", content := "old", createdAt := 1 }⟩]
      "u" "new" 5 "b" none =
      .ok ([⟨"a", { userId := "u", content := "old", createdAt := 1 }⟩] ++
        [⟨"b", { userId := "u", content := "new", createdAt := 5 }⟩], "b") ∧
    getEntriesForUser
      ([⟨"a", { userId := "u", content := "old", createdAt := 1 }⟩] ++
        [⟨"b", { userId := "u", content := "new", createdAt := 5 }⟩])
      "u" none =
      .ok (⟨"b", "u", "new", 5⟩ :: [⟨"a", "u", "old", 1⟩]) :=
  createEntry_then_list_new_first
    [⟨"a", { userId := "u", content := "old", createdAt := 1 }⟩]
    "u" "new" 5 "b" [⟨"a", "u", "old", 1⟩] (by decide) rfl

/-- C4: a successful `createEntry(ownerId, content)` appends exactly one
new record holding that owner, that content and a `createdAt` timestamp,
and returns the identifier the store assigned to that record: when the
assigned id is fresh, the updated store holds exactly one record under it
and the prior store held none. -/
theorem createEntry_inserts_one_returns_id (store : Store)
    (uid content : String) (clientNow : Nat) (newId : String)
    (hfresh : newId ∉ store.map (fun d => d.id)) :
    createEntry store uid content clientNow newId none =
      .ok (store ++
        [⟨newId, { userId := uid, content := content, createdAt := clientNow }⟩],
        newId) ∧
    (store ++
      ([⟨newId, { userId := uid, content := content, createdAt := clientNow }⟩] :
        Store)).filter (fun d => d.id == newId) =
      ([⟨newId, { userId := uid, content := content, createdAt := clientNow }⟩] :
        Store) ∧
    store.filter (fun d => d.id == newId) = [] := by
  have hnone : store.filter (fun d => d.id == newId) = [] :=
    List.filter_eq_nil_iff.mpr (fun d hd => by
      simp only [beq_iff_eq]
      intro heq
      exact hfresh (List.mem_map.mpr ⟨d, hd, heq⟩))
  refine ⟨rfl, ?_, hnone⟩
  rw [List.filter_append, hnone]
  simp

/-- Witness for C4: fresh id `"b"` on the one-entry store. -/
theorem createEntry_inserts_one_returns_id_witness :
    createEntry cexStore "u" "hello" 9 "b" none =
      .ok (cexStore ++
        [⟨"b", { userId := "u", content := "hello", createdAt := 9 }⟩], "b") ∧
    (cexStore ++
      ([⟨"b", { userId := "u", content := "hello", createdAt := 9 }⟩] :
        Store)).filter (fun d => d.id == "b") =
      ([⟨"b", { userId := "u", content := "hello", createdAt := 9 }⟩] :
        Store) ∧
    cexStore.filter (fun d => d.id == "b") = [] :=
  createEntry_inserts_one_returns_id cexStore "u" "hello" 9 "b" (by decide)

/-- C5: `deleteEntry(entryId)` removes exactly the record with that id
and returns void on success; it never consults ownership — its result
commutes with an arbitrary rewrite of every record's `userId`. -/
theorem deleteEntry_by_id_ownership_blind (store : Store) (eid : String)
    (f : String → String) :
    deleteEntry store eid none =
      .ok (store.filter (fun d => d.id != eid), ()) ∧
    (∀ d ∈ store.filter (fun d => d.id != eid), d.id ≠ eid) ∧
    deleteEntry (setUserIds f store) eid none =
      .ok (setUserIds f (store.filter (fun d => d.id != eid)), ()) := by
  refine ⟨rfl, ?_, ?_⟩
  · intro d hd
    have := (List.mem_filter.mp hd).2
    simpa using this
  · show Except.ok ((setUserIds f store).filter (fun d => d.id != eid), ()) = _
    rw [setUserIds, List.filter_map]
    rfl

/-- Witness for C5 at a concrete store and owner rewrite. -/
theorem deleteEntry_by_id_ownership_blind_witness :
    deleteEntry cexStore "a" none =
      .ok (cexStore.filter (fun d => d.id != "a"), ()) ∧
    (∀ d ∈ cexStore.filter (fun d => d.id != "a"), d.id ≠ "a") ∧
    deleteEntry (setUserIds (fun _ => "other") cexStore) "a" none =
      .ok (setUserIds (fun _ => "other")
        (cexStore.filter (fun d => d.id != "a")), ()) :=
  deleteEntry_by_id_ownership_blind cexStore "a" (fun _ => "other")

/-- C9: the entry form invokes `createEntry` only when a user is
authenticated and the composed text is non-empty after trimming, and the
content it passes is exactly the trimmed text (in particular it is never
the empty string). -/
theorem createEntry_called_only_authenticated_trimmed (user : Option String)
    (st : FormState) (res : Except StoreErr String) (uid c : String)
    (h : (handleSubmit user st res).2 = some (uid, c)) :
    user = some uid ∧ c = jsTrim st.content ∧ c ≠ "" := by
  match user with
  | none => exact absurd h (by simp [handleSubmit])
  | some u =>
      by_cases hc : jsTrim st.content = ""
      · exact absurd h (by simp [handleSubmit, hc])
      · match res with
        | .ok i =>
            simp only [handleSubmit, if_neg hc, Option.some.injEq,
              Prod.mk.injEq] at h
            exact ⟨by rw [h.1], h.2.symm, h.2.symm ▸ hc⟩
        | .error e =>
            simp only [handleSubmit, if_neg hc, Option.some.injEq,
              Prod.mk.injEq] at h
            exact ⟨by rw [h.1], h.2.symm, h.2.symm ▸ hc⟩

/-- Witness for C9: a signed-in user submits text with surrounding
whitespace; the call carries the trimmed, non-empty content. -/
theorem createEntry_called_only_authenticated_trimmed_witness :
    (some "user-123" : Option String) = some "user-123" ∧
    "My entry" = jsTrim "  My entry  " ∧ "My entry" ≠ "" :=
  createEntry_called_only_authenticated_trimmed (some "user-123")
    ⟨"  My entry  ", false⟩ (.ok "new-entry-id") "user-123" "My entry"
    (by decide)

/-- C10: when `deleteEntry(entryId)` succeeds, the list view's local state
keeps exactly the entries whose id differs from `entryId`, in their
original relative order (the new list is a sublist of the old), and drops
every entry whose id equals `entryId`. -/
theorem handleDelete_success_removes_exactly_id (entries : List Entry)
    (eid : String) :
    List.Sublist (handleDelete entries eid (.ok ())) entries ∧
    (∀ e ∈ handleDelete entries eid (.ok ()), e.id ≠ eid ∧ e ∈ entries) ∧
    (∀ e ∈ entries, e.id ≠ eid → e ∈ handleDelete entries eid (.ok ())) := by
  refine ⟨List.filter_sublist entries, ?_, ?_⟩
  · intro e he
    have hm := List.mem_filter.mp he
    refine ⟨?_, hm.1⟩
    simpa using hm.2
  · intro e he hne
    exact List.mem_filter.mpr ⟨he, by simpa using hne⟩

/-- Witness for C10: deleting id `"a"` from a two-entry local list keeps
the other entry. -/
theorem handleDelete_success_removes_exactly_id_witness :
    (∀ e ∈ handleDelete [⟨"a", "u", "x", 1⟩, ⟨"b", "u", "y", 2⟩] "a" (.ok ()),
      e.id ≠ "a" ∧ e ∈ ([⟨"a", "u", "x", 1⟩, ⟨"b", "u", "y", 2⟩] : List Entry)) ∧
    (⟨"b", "u", "y", 2⟩ : Entry) ∈
      handleDelete [⟨"a", "u", "x", 1⟩, ⟨"b", "u", "y", 2⟩] "a" (.ok ()) :=
  ⟨(handleDelete_success_removes_exactly_id
      [⟨"a", "u", "x", 1⟩, ⟨"b", "u", "y", 2⟩] "a").2.1,
   (handleDelete_success_removes_exactly_id
      [⟨"a", "u", "x", 1⟩, ⟨"b", "u", "y", 2⟩] "a").2.2
     ⟨"b", "u", "y", 2⟩ (by decide) (by decide)⟩

end Journal
